import Mathlib

/-!
Verification of the fly-explorer streaming core against its source.

JavaScript strings are modelled as `List Char`; the helpers below mirror the
JS string primitives the source uses (`split`, `trim`, `includes`,
`startsWith`, global single-character `replace`, `slice(-n)`).
-/

/-- JS `String.prototype.split(sep)` with a single-character separator is
`List.splitOn`; `trim` drops leading and trailing whitespace. -/
def jsTrim (l : List Char) : List Char :=
  ((l.dropWhile Char.isWhitespace).reverse.dropWhile Char.isWhitespace).reverse

/-- JS `String.prototype.includes(sub)`: some contiguous run of `hay` equals `sub`. -/
def jsIncludes (hay sub : List Char) : Bool :=
  match hay with
  | [] => sub.isPrefixOf ([] : List Char)
  | _ :: t => sub.isPrefixOf hay || jsIncludes t sub

/-- JS `Array.prototype.slice(-n)` for `n ≥ 1`: the last `n` elements. -/
def jsSliceNeg (l : List α) (n : Nat) : List α :=
  l.drop (l.length - n)

/-- JS global `replace` of one character by a replacement string. -/
def replaceAllChar (l : List Char) (c : Char) (r : List Char) : List Char :=
  l.flatMap (fun x => if x = c then r else [x])

/-- `escapeHtml` (src/server/index.ts:1196-1203): sequential global replaces of
`&`, `<`, `>`, `"`, `'` by their HTML entities. -/
def escapeHtml (text : List Char) : List Char :=
  replaceAllChar (replaceAllChar (replaceAllChar (replaceAllChar (replaceAllChar
    text '&' ("&amp;".toList)) '<' ("&lt;".toList)) '>' ("&gt;".toList))
    '"' ("&quot;".toList)) '\'' ("&#39;".toList)

/-- `extractLogLevel` (src/server/index.ts:1092-1099): keyword match on the
lowercased line. -/
def extractLogLevel (logLine : List Char) : List Char :=
  let line := logLine.map Char.toLower
  if jsIncludes line ("error".toList) || jsIncludes line ("err".toList) then "error".toList
  else if jsIncludes line ("warn".toList) || jsIncludes line ("warning".toList) then "warn".toList
  else if jsIncludes line ("info".toList) then "info".toList
  else if jsIncludes line ("debug".toList) then "debug".toList
  else "info".toList

/-- The `ansiColorMap` object literal of `ansiToHtml`
(src/server/index.ts:1109-1149), as an association list. -/
def ansiColorMapList : List (List Char × List Char) :=
  [("30".toList, "color: #000000".toList),
   ("31".toList, "color: #e74c3c".toList),
   ("32".toList, "color: #2ecc71".toList),
   ("33".toList, "color: #f1c40f".toList),
   ("34".toList, "color: #3498db".toList),
   ("35".toList, "color: #9b59b6".toList),
   ("36".toList, "color: #1abc9c".toList),
   ("37".toList, "color: #ecf0f1".toList),
   ("90".toList, "color: #7f8c8d".toList),
   ("91".toList, "color: #ff6b6b".toList),
   ("92".toList, "color: #51cf66".toList),
   ("93".toList, "color: #ffd93d".toList),
   ("94".toList, "color: #74c0fc".toList),
   ("95".toList, "color: #d0bfff".toList),
   ("96".toList, "color: #66d9ef".toList),
   ("97".toList, "color: #ffffff".toList),
   ("40".toList, "background-color: #000000".toList),
   ("41".toList, "background-color: #e74c3c".toList),
   ("42".toList, "background-color: #2ecc71".toList),
   ("43".toList, "background-color: #f1c40f".toList),
   ("44".toList, "background-color: #3498db".toList),
   ("45".toList, "background-color: #9b59b6".toList),
   ("46".toList, "background-color: #1abc9c".toList),
   ("47".toList, "background-color: #ecf0f1".toList),
   ("100".toList, "background-color: #7f8c8d".toList),
   ("101".toList, "background-color: #ff6b6b".toList),
   ("102".toList, "background-color: #51cf66".toList),
   ("103".toList, "background-color: #ffd93d".toList),
   ("104".toList, "background-color: #74c0fc".toList),
   ("105".toList, "background-color: #d0bfff".toList),
   ("106".toList, "background-color: #66d9ef".toList),
   ("107".toList, "background-color: #ffffff".toList),
   ("1".toList, "font-weight: bold".toList),
   ("2".toList, "opacity: 0.7".toList),
   ("3".toList, "font-style: italic".toList),
   ("4".toList, "text-decoration: underline".toList)]

/-- `ansiColorMap[code]`: key lookup in the object literal. -/
def ansiColorMap (code : List Char) : Option (List Char) :=
  ansiColorMapList.lookup code

/-- The CSS property key of a declaration: `style.split(':')[0]`
(src/server/index.ts:1172). -/
def styleProp (style : List Char) : List Char :=
  (style.splitOn ':').headD []

/-- One iteration of the code-processing loop of `ansiToHtml`
(src/server/index.ts:1165-1178): reset on `0`/empty, evict-then-append for a
recognized code, no-op otherwise. -/
def applyCode (styles : List (List Char)) (code : List Char) : List (List Char) :=
  if code = ['0'] || code = [] then
    []
  else
    match ansiColorMap code with
    | some style =>
        let property := styleProp style
        (styles.filter (fun s => !(property.isPrefixOf s))) ++ [style]
    | none => styles

/-- `for (const code of codes)` over one escape sequence's parameter list. -/
def applyCodes (styles : List (List Char)) (params : List Char) : List (List Char) :=
  (params.splitOn ';').foldl applyCode styles

/-- Whether a character can appear in the parameter part of the escape-sequence
regex `\x1b\[([0-9;]*)m`. -/
def isCodeChar (c : Char) : Bool :=
  c.isDigit || c = ';'

/-- Match the regex `\x1b\[([0-9;]*)m` at the head of the input; on success
return the captured parameter run and the rest of the input. -/
def matchEsc (l : List Char) : Option (List Char × List Char) :=
  match l with
  | a :: b :: rest =>
      if a = '\x1b' then
        if b = '[' then
          match rest.dropWhile isCodeChar with
          | c :: rest' => if c = 'm' then some (rest.takeWhile isCodeChar, rest') else none
          | [] => none
        else none
      else none
  | _ => none

theorem length_dropWhile_le (p : α → Bool) (l : List α) :
    (l.dropWhile p).length ≤ l.length := by
  induction l with
  | nil => simp [List.dropWhile]
  | cons a t ih =>
      by_cases h : p a
      · simpa [List.dropWhile, h] using Nat.le_succ_of_le ih
      · simp [List.dropWhile, h]

theorem matchEsc_length : ∀ {l params rest : List Char},
    matchEsc l = some (params, rest) → rest.length < l.length := by
  intro l params rest h
  match l with
  | [] => simp [matchEsc] at h
  | [a] => simp [matchEsc] at h
  | a :: b :: tail =>
      simp only [matchEsc] at h
      split at h
      · split at h
        · split at h
          · rename_i c rest' hd
            split at h
            · injection h with h1
              injection h1 with h1 h2
              subst h2
              have hle : (tail.dropWhile isCodeChar).length ≤ tail.length :=
                length_dropWhile_le _ _
              rw [hd] at hle
              simp only [List.length_cons] at hle ⊢
              omega
            · cases h
          · cases h
        · cases h
      · cases h

/-- Flush the buffered plain text: wrap it in a styled span when styles are
active, emit it escaped otherwise, emit nothing when the buffer is empty
(src/server/index.ts:1154-1161 and 1183-1191). -/
def flushText (styles : List (List Char)) (buf : List Char) : List Char :=
  if buf = [] then []
  else if styles ≠ [] then
    "<span style=\"".toList ++ List.intercalate ("; ".toList) styles
      ++ "\">".toList ++ escapeHtml buf ++ "</span>".toList
  else
    escapeHtml buf

/-- The scan loop of `ansiToHtml` (src/server/index.ts:1151-1191): repeatedly
find the next escape sequence, flush the text run before it, update the active
styles from its codes, and finally flush the trailing text. The `fuel`
argument makes the recursion structural; every step consumes at least one
input character, so `fuel = input length` never runs out (`ansiScan_fuel`). -/
def ansiScan : Nat → List (List Char) → List Char → List Char → List Char
  | _, styles, buf, [] => flushText styles buf
  | 0, styles, buf, _ => flushText styles buf
  | fuel + 1, styles, buf, c :: cs =>
      match matchEsc (c :: cs) with
      | some pr =>
          flushText styles buf ++ ansiScan fuel (applyCodes styles pr.1) [] pr.2
      | none => ansiScan fuel styles (buf ++ [c]) cs

/-- `ansiToHtml` (src/server/index.ts:1102-1194). The identical copy in the
React client (part_006 lines 136-220) is the same function. -/
def ansiToHtml (text : List Char) : List Char :=
  ansiScan text.length [] [] text

/-! ## Log streaming bridge

Server side: the SSE branch of `app.get('/api/apps/:app/logs')`
(src/server/index.ts:637-708). Client side: `fetchLogs` in the React app
(src/unnamed/part_006 lines 339-430). Impure details (timestamp extraction
uses `Date`, client entry ids use `Date.now()`/`Math.random()`) are supplied
as oracle parameters. -/

/-- A progress notification payload as delivered to the server's callback:
`{progressToken, progress?, total?, message?}` (part_001 lines 405-413). -/
structure ProgressNotification where
  progressToken : List Char
  message : Option (List Char)
  deriving DecidableEq, Repr

/-- The message the server forwards for a notification:
`notification.message || notification.params?.message` followed by the
`if (message)` truthiness guard (src/server/index.ts:667-668); the payload
has no nested `params`, so only a present, non-empty `message` passes. -/
def effMessage (n : ProgressNotification) : Option (List Char) :=
  match n.message with
  | some m => if m = [] then none else some m
  | none => none

/-- A rendered log entry (src/server/index.ts:683-689 and the client progress
entry, part_006 lines 375-381). Server entries carry a numeric id, client
progress entries a generated string id. -/
inductive EntryId where
  | num (n : Nat)
  | str (s : List Char)
  deriving DecidableEq, Repr

structure LogEntry where
  id : EntryId
  timestamp : List Char
  message : List Char
  messageHtml : List Char
  level : List Char
  deriving DecidableEq, Repr

/-- One server-side final-log entry (src/server/index.ts:683-689); `ts`
abstracts `extractTimestamp` (regex match or `new Date()`, impure). -/
def mkLogEntry (ts : List Char → List Char) (i : Nat) (line : List Char) : LogEntry :=
  { id := .num i
    timestamp := ts line
    message := line
    messageHtml := ansiToHtml line
    level := extractLogLevel line }

/-- `parseInt(lines) || 100` (src/server/index.ts:682): an absent or zero
count falls back to 100. -/
def effLimit (lines : Option Nat) : Nat :=
  match lines with
  | some n => if n = 0 then 100 else n
  | none => 100

/-- Final-log processing on call completion (src/server/index.ts:680-689):
split on newlines, keep non-blank lines, keep the last N, render each. -/
def processFinalLogs (ts : List Char → List Char) (logs : List Char)
    (lines : Option Nat) : List LogEntry :=
  (jsSliceNeg ((logs.splitOn '\n').filter (fun l => !(jsTrim l).isEmpty))
    (effLimit lines)).mapIdx (mkLogEntry ts)

/-- The SSE frames of the log stream (src/server/index.ts:650, 671-675,
692-696, 701-705). -/
inductive SSEFrame where
  | connected
  | progress (message : List Char) (params : ProgressNotification)
  | complete (logs : List LogEntry) (progressMessages : List (List Char))
  | error (error details : List Char)
  deriving DecidableEq, Repr

/-- The progress frames emitted while streaming: one per notification whose
effective message is truthy, in arrival order (src/server/index.ts:666-677). -/
def progressFrames (notifs : List ProgressNotification) : List SSEFrame :=
  notifs.filterMap (fun n => (effMessage n).map (fun m => .progress m n))

/-- The `progressMessages` accumulator (src/server/index.ts:663-669). -/
def progressMessages (notifs : List ProgressNotification) : List (List Char) :=
  notifs.filterMap effMessage

/-- The full SSE session emitted by the server (src/server/index.ts:637-708):
`connected`, then the progress frames, then either one `complete` frame (call
resolved with raw text `logs`) or one `error` frame (call threw). -/
def serverLogSession (ts : List Char → List Char)
    (notifs : List ProgressNotification) (result : Except (List Char) (List Char))
    (lines : Option Nat) : List SSEFrame :=
  [.connected] ++ progressFrames notifs ++
    match result with
    | .ok logs => [.complete (processFinalLogs ts logs lines) (progressMessages notifs)]
    | .error e => [.error ("Failed to fetch logs".toList) e]

/-- The `complete` frame's log list, when the session emitted one. -/
def completeLogsOf (frames : List SSEFrame) : Option (List LogEntry) :=
  frames.reverse.findSome? (fun f =>
    match f with
    | .complete logs _ => some logs
    | _ => none)

/-- Oracles for the impure parts of the client's progress entry
(part_006 lines 375-381): the generated id
`progress-Date.now()-Math.random()` and `new Date().toISOString()`, indexed
by how many progress entries were created so far. -/
structure ClientEnv where
  progressId : Nat → List Char
  nowIso : Nat → List Char

/-- The client's per-session state: the accumulated log window
(`currentLogs`/`logs`), the progress-message list, the loading flag, and a
draw counter for the id/timestamp oracles. -/
structure ClientLogState where
  logs : List LogEntry
  logProgress : List (List Char)
  logsLoading : Bool
  ticks : Nat
  deriving Repr

/-- `data.message || data.params?.message || 'Processing...'`
(part_006 line 374). -/
def rawMessageOf (m : List Char) (params : ProgressNotification) : List Char :=
  if m ≠ [] then m
  else match params.message with
    | some pm => if pm ≠ [] then pm else "Processing...".toList
    | none => "Processing...".toList

/-- The client's progress log entry (part_006 lines 375-381), formatted like
a regular log line. -/
def progressEntry (env : ClientEnv) (k : Nat) (raw : List Char) : LogEntry :=
  { id := .str (env.progressId k)
    timestamp := env.nowIso k
    message := raw
    messageHtml := ansiToHtml raw
    level := extractLogLevel raw }

/-- A scheduled retry of the whole session: `setTimeout(() =>
fetchLogs(app, filters, true), 2000)` (part_006 lines 406-409 and 420-423). -/
structure RetryAction where
  delayMs : Nat
  app : List Char
  filters : List (List Char × List Char)
  isRetry : Bool
  deriving DecidableEq, Repr

/-- The `eventSource.onmessage` handler (part_006 lines 364-412): one step of
the client state machine, returning the new state and an optionally scheduled
retry. -/
def clientStep (env : ClientEnv) (app : List Char)
    (filters : List (List Char × List Char)) (st : ClientLogState)
    (f : SSEFrame) : ClientLogState × Option RetryAction :=
  match f with
  | .connected => (st, none)
  | .progress m params =>
      let raw := rawMessageOf m params
      ({ st with logs := st.logs ++ [progressEntry env st.ticks raw]
                 ticks := st.ticks + 1 }, none)
  | .complete finalLogs _ =>
      (if finalLogs ≠ [] then
        { st with logs := st.logs ++ finalLogs, logsLoading := false }
       else { st with logsLoading := false }, none)
  | .error _ _ =>
      ({ st with logsLoading := false },
       some { delayMs := 2000, app := app, filters := filters, isRetry := true })

/-- The `eventSource.onerror` handler (part_006 lines 414-424): a
transport-level failure closes the stream and schedules the same retry. -/
def clientTransportFailure (app : List Char)
    (filters : List (List Char × List Char)) (st : ClientLogState) :
    ClientLogState × Option RetryAction :=
  ({ st with logsLoading := false },
   some { delayMs := 2000, app := app, filters := filters, isRetry := true })

/-- The start of `fetchLogs` (part_006 lines 339-350): both the fresh and the
retry path clear the progress list and the log window and raise the loading
flag. -/
def fetchLogsStart (st : ClientLogState) (isRetry : Bool) : ClientLogState :=
  if isRetry then { st with logsLoading := true, logProgress := [], logs := [] }
  else { st with logsLoading := true, logProgress := [], logs := [] }

/-- Run a whole received frame sequence through the client handler, starting
from a fresh `fetchLogs` call. -/
def clientRun (env : ClientEnv) (app : List Char)
    (filters : List (List Char × List Char)) (st : ClientLogState)
    (isRetry : Bool) (frames : List SSEFrame) : ClientLogState :=
  frames.foldl (fun s f => (clientStep env app filters s f).1)
    (fetchLogsStart st isRetry)

/-! ## Notification router

`callToolWithNotifications` (src/server/index.ts:249-295) wraps the client's
single `onProgress` slot: it saves the current handler, installs a wrapper
that filters by correlation token and re-invokes the saved handler, and
restores the saved handler in a `finally` block. Handler values are modelled
syntactically so that the dispatch of a notification can be computed. -/

/-- A value that can sit in the `mcpClient.onProgress` slot: `missing`
(`undefined`, no handler installed), some externally installed handler
(identified by a number), or the wrapper built by
`callToolWithNotifications` (src/server/index.ts:264-273), which captures the
correlation token, the optional local callback, and the saved prior slot
value. -/
inductive Handler where
  | missing
  | external (id : Nat)
  | wrapper (token : List Char) (callback : Option Nat) (original : Handler)
  deriving DecidableEq, Repr

/-- An observable invocation during dispatch: a local notification callback
(`cb`) or an external handler (`ext`). -/
inductive Invocation where
  | cb (id : Nat)
  | ext (id : Nat)
  deriving DecidableEq, Repr

/-- Dispatch of one progress notification through the current slot. The
wrapper case mirrors src/server/index.ts:264-273: the local callback fires
exactly on a token match (and only if a callback was supplied), and the saved
original handler is then re-invoked unconditionally (if present — the
`if (originalProgressHandler)` guard is the `missing` case). -/
def fire : Handler → ProgressNotification → List Invocation
  | .missing, _ => []
  | .external i, _ => [.ext i]
  | .wrapper token cb orig, p =>
      (if p.progressToken = token then
        (match cb with
         | some c => [.cb c]
         | none => [])
       else []) ++ fire orig p

/-- The client state visible to `callToolWithNotifications`: the single
process-wide progress-handler slot (part_001 line 370). -/
structure MCPClientState where
  onProgress : Handler
  deriving DecidableEq, Repr

/-- `callToolWithNotifications` (src/server/index.ts:249-295) as a state
transformer: it saves `onProgress`, installs the wrapper for the duration of
the call, computes the dispatch of every notification arriving in flight, and
restores the saved handler in `finally` — whether the call resolved or threw
(`outcome` is passed through either way). Returns the per-notification
invocation lists, the final client state, and the outcome. -/
def callToolWithNotifications (s : MCPClientState) (progressToken : List Char)
    (notificationCallback : Option Nat) (events : List ProgressNotification)
    (outcome : Except (List Char) (List Char)) :
    List (List Invocation) × MCPClientState × Except (List Char) (List Char) :=
  let originalProgressHandler := s.onProgress
  let installed : Handler :=
    .wrapper progressToken notificationCallback originalProgressHandler
  (events.map (fire installed), { onProgress := originalProgressHandler }, outcome)

/-! ## Tool client response unwrapping

`callTool` (src/server/index.ts:199-246). The transport round trip is out of
scope; the unwrapping of a `ToolResponse` (lines 229-246) is modelled
exactly, with `JSON.parse` abstracted as a fallible `parse` oracle. -/

/-- One content block of a tool response. -/
structure ContentBlock where
  type : List Char
  text : List Char
  deriving DecidableEq, Repr

/-- A tool response: `content` may be absent or any array. -/
structure ToolResponse where
  content : Option (List ContentBlock)
  deriving DecidableEq, Repr

/-- The value `callTool` returns: the JSON-parsed object, the
`{raw_text: …}` fallback wrapper, or the raw text when `parseJson` is off. -/
inductive CallToolOut (J : Type) where
  | parsed (v : J)
  | rawText (text : List Char)
  | plain (text : List Char)
  deriving DecidableEq, Repr

/-- The response unwrapping of `callTool` (src/server/index.ts:229-245):
check for a non-empty content array whose first block is text, then either
JSON-parse with a raw-text fallback (`parseJson = true`) or return the text;
any other shape throws `Invalid response from tool`. -/
def callToolUnwrap {J : Type} (parse : List Char → Except (List Char) J)
    (parseJson : Bool) (response : ToolResponse) :
    Except (List Char) (CallToolOut J) :=
  match response.content with
  | some (content :: _) =>
      if content.type = "text".toList then
        if parseJson then
          match parse content.text with
          | .ok v => .ok (.parsed v)
          | .error _ => .ok (.rawText content.text)
        else .ok (.plain content.text)
      else .error ("Invalid response from tool".toList)
  | some [] => .error ("Invalid response from tool".toList)
  | none => .error ("Invalid response from tool".toList)

/-! ## Multi-provider streaming chat adapter

`handleProviderChat` (src/server/index.ts:1400-1731) and the `/api/chat`
endpoint (src/server/index.ts:1734-1814). Vendor HTTP calls are abstracted as
oracles; the frame emission and second-pass request assembly are modelled
exactly. -/

/-- A frame written to the chat SSE stream: a `{content}` data frame, the
`{error}` data frame, or the literal `[DONE]` sentinel. -/
inductive ChatFrame where
  | content (text : List Char)
  | errorFrame (message : List Char)
  | done
  deriving DecidableEq, Repr

/-- The concatenated text of the emitted `content` frames. -/
def framesText (frames : List ChatFrame) : List Char :=
  (frames.filterMap (fun f =>
    match f with
    | .content t => some t
    | _ => none)).flatten

/-- The word chunking used when the first pass returned no tool calls
(src/server/index.ts:1454-1458, likewise 1520-1524, 1577-1587, 1650-1660,
1717-1728): `content.split(' ')`, each word emitted as `word + ' '`. -/
def emitWordChunks (content : List Char) : List (List Char) :=
  (content.splitOn ' ').map (fun word => word ++ [' '])

/-- The OpenAI no-tool-call path (src/server/index.ts:1453-1459): the guard
`else if (message?.content)` skips an absent or empty content, otherwise the
word chunks are written as `content` frames. The Mistral path
(src/server/index.ts:1723-1729) is the same function. -/
def openaiNoToolFrames (content : Option (List Char)) : List ChatFrame :=
  match content with
  | some c => if c = [] then [] else (emitWordChunks c).map .content
  | none => []

/-- One content block of an Anthropic first-pass response
(src/server/index.ts:1477-1517): a `tool_use` block carries id/name/input, a
`text` block carries text. `J` is the type of JSON values. -/
structure AContentBlock (J : Type) where
  type : List Char
  id : List Char
  name : List Char
  input : J
  text : List Char

/-- One entry of the `tool_result` user message sent back to Anthropic
(src/server/index.ts:1484-1495). The success path leaves `is_error` unset
(false); the catch path sets it. -/
structure AToolResult where
  tool_use_id : List Char
  content : List Char
  is_error : Bool
  deriving DecidableEq, Repr

/-- A message of the Anthropic conversation (src/server/index.ts:1502-1506). -/
inductive AMessage (J : Type) where
  | plain (role : List Char) (content : List Char)
  | assistantBlocks (content : List (AContentBlock J))
  | userToolResults (content : List AToolResult)

def AMessage.role {J : Type} : AMessage J → List Char
  | .plain r _ => r
  | .assistantBlocks _ => "assistant".toList
  | .userToolResults _ => "user".toList

/-- The Anthropic tool-execution loop (src/server/index.ts:1480-1497): each
`tool_use` block is executed; a success is stringified, a thrown error is
captured per call as `Error: …` with `is_error: true`. -/
def anthropicToolResults {J : Type} (exec : List Char → J → Except (List Char) J)
    (stringify : J → List Char) (blocks : List (AContentBlock J)) :
    List AToolResult :=
  (blocks.filter (fun b => b.type = "tool_use".toList)).map (fun toolUse =>
    match exec toolUse.name toolUse.input with
    | .ok result =>
        { tool_use_id := toolUse.id, content := stringify result, is_error := false }
    | .error e =>
        { tool_use_id := toolUse.id, content := "Error: ".toList ++ e, is_error := true })

/-- The message list of the Anthropic second-pass (streaming) request
(src/server/index.ts:1499-1509). -/
def anthropicSecondPassMessages {J : Type} (chatMessages : List (AMessage J))
    (responseContent : List (AContentBlock J)) (toolResults : List AToolResult) :
    List (AMessage J) :=
  (chatMessages.filter (fun m => !(m.role = "system".toList : Bool))) ++
    [.assistantBlocks responseContent, .userToolResults toolResults]

/-- A chunk of the Anthropic second-pass stream; only
`content_block_delta`/`text_delta` chunks are forwarded
(src/server/index.ts:1511-1515). -/
inductive AChunk where
  | textDelta (text : List Char)
  | other
  deriving DecidableEq, Repr

/-- Forwarding of the second-pass stream (src/server/index.ts:1511-1515). -/
def anthropicStreamFrames (chunks : List AChunk) : List ChatFrame :=
  chunks.filterMap (fun c =>
    match c with
    | .textDelta t => some (.content t)
    | .other => none)

/-- The Anthropic no-tool-call path (src/server/index.ts:1516-1527): all
`text` blocks are word-chunked in order. -/
def anthropicNoToolFrames {J : Type} (responseContent : List (AContentBlock J)) :
    List ChatFrame :=
  ((responseContent.filter (fun b => b.type = "text".toList)).flatMap
    (fun block => emitWordChunks block.text)).map .content

/-- The Anthropic branch of `handleProviderChat`
(src/server/index.ts:1460-1527), from the first-pass response on. `stream` is
the vendor's streaming second pass, an oracle from the request messages to
the received chunks. Returns the emitted frames and, when a second pass was
made, its request messages. -/
def anthropicChat {J : Type} (exec : List Char → J → Except (List Char) J)
    (stringify : J → List Char) (chatMessages : List (AMessage J))
    (responseContent : List (AContentBlock J))
    (stream : List (AMessage J) → List AChunk) :
    List ChatFrame × Option (List (AMessage J)) :=
  let toolUseBlocks := responseContent.filter (fun b => b.type = "tool_use".toList)
  if !toolUseBlocks.isEmpty then
    let toolResults := anthropicToolResults exec stringify responseContent
    let secondMessages :=
      anthropicSecondPassMessages chatMessages responseContent toolResults
    (anthropicStreamFrames (stream secondMessages), some secondMessages)
  else
    (anthropicNoToolFrames responseContent, none)

/-- The HTTP-level outcome of `/api/chat` (src/server/index.ts:1734-1814):
either the early `res.status(400).json(…)` reply, before any SSE setup, or
an SSE stream of data frames. -/
inductive ChatHttpResponse where
  | jsonError (status : Nat) (error : List Char)
  | sse (frames : List ChatFrame)
  deriving DecidableEq, Repr

def ChatHttpResponse.isSse : ChatHttpResponse → Bool
  | .jsonError _ _ => false
  | .sse _ => true

/-- The `/api/chat` endpoint (src/server/index.ts:1734-1814). `run` abstracts
`await handleProviderChat(…)`: the frames it wrote before returning or
throwing, and the thrown error if any. Without an API key the endpoint
replies 400 JSON before any SSE header is written; otherwise the written
frames are followed by the `[DONE]` sentinel on success, or by one `error`
frame when the handler threw. -/
def chatEndpoint (hasApiKey : Bool) (run : List ChatFrame × Option (List Char)) :
    ChatHttpResponse :=
  if !hasApiKey then
    .jsonError 400 ("No API key configured".toList)
  else
    match run with
    | (frames, none) => .sse (frames ++ [.done])
    | (frames, some e) => .sse (frames ++ [.errorFrame e])

/-- The fuel argument of `ansiScan` is an artifact: any fuel at least the
input length computes the same result. -/
theorem ansiScan_fuel : ∀ (fuel : Nat) (styles : List (List Char))
    (buf l : List Char), l.length ≤ fuel →
    ansiScan fuel styles buf l = ansiScan l.length styles buf l := by
  intro fuel
  induction fuel using Nat.strong_induction_on with
  | _ fuel ih =>
      intro styles buf l hl
      match fuel, l with
      | f, [] => cases f <;> rfl
      | 0, c :: cs => simp at hl
      | f + 1, c :: cs =>
          simp only [List.length_cons]
          simp only [List.length_cons] at hl
          show ansiScan (f + 1) styles buf (c :: cs)
            = ansiScan (cs.length + 1) styles buf (c :: cs)
          simp only [ansiScan]
          cases hm : matchEsc (c :: cs) with
          | some pr =>
              have hr : pr.2.length < cs.length + 1 := by
                have := @matchEsc_length (c :: cs) pr.1 pr.2
                simpa using this (by simpa using hm)
              have h1 : ansiScan f (applyCodes styles pr.1) [] pr.2
                  = ansiScan pr.2.length (applyCodes styles pr.1) [] pr.2 :=
                ih f (Nat.lt_succ_self f) _ _ _ (by omega)
              have h2 : ansiScan cs.length (applyCodes styles pr.1) [] pr.2
                  = ansiScan pr.2.length (applyCodes styles pr.1) [] pr.2 :=
                ih cs.length (by omega) _ _ _ (by omega)
              simp [h1, h2]
          | none =>
              have h1 : ansiScan f styles (buf ++ [c]) cs
                  = ansiScan cs.length styles (buf ++ [c]) cs :=
                ih f (Nat.lt_succ_self f) _ _ _ (by omega)
              simp [h1]

/-! ## Claims -/

/-- C3: for a tool response whose payload is a single text block, `callTool`
with JSON parsing enabled returns the parsed object when the text is valid
JSON, returns `{raw_text: text}` when it is not, and the decode step never
throws. -/
theorem callTool_json_roundtrip {J : Type} (parse : List Char → Except (List Char) J)
    (text : List Char) :
    (∀ v, parse text = .ok v →
      callToolUnwrap parse true
        { content := some [{ type := "text".toList, text := text }] }
        = .ok (.parsed v)) ∧
    (∀ e, parse text = .error e →
      callToolUnwrap parse true
        { content := some [{ type := "text".toList, text := text }] }
        = .ok (.rawText text)) ∧
    (∃ r, callToolUnwrap parse true
        { content := some [{ type := "text".toList, text := text }] } = .ok r) := by
  refine ⟨?_, ?_, ?_⟩
  · intro v hv
    simp [callToolUnwrap, hv]
  · intro e he
    simp [callToolUnwrap, he]
  · cases hp : parse text with
    | ok v => exact ⟨.parsed v, by simp [callToolUnwrap, hp]⟩
    | error e => exact ⟨.rawText text, by simp [callToolUnwrap, hp]⟩

/-- Witness for C3 at a concrete parse oracle and concrete texts. -/
theorem callTool_json_roundtrip_witness :
    callToolUnwrap (fun t => if t = "1".toList then Except.ok 1 else Except.error ("bad".toList))
      true { content := some [{ type := "text".toList, text := "1".toList }] }
      = .ok (.parsed 1) ∧
    callToolUnwrap (fun t => if t = "1".toList then Except.ok 1 else Except.error ("bad".toList))
      true { content := some [{ type := "text".toList, text := "x".toList }] }
      = .ok (.rawText ("x".toList)) :=
  ⟨(callTool_json_roundtrip _ _).1 1 rfl,
   (callTool_json_roundtrip _ _).2.1 ("bad".toList) rfl⟩

/-- C10: the unwrapping throws `Invalid response from tool` exactly when the
content array is absent, empty, or its first block is not of type `text`;
whenever the first block is a text block it returns a value, and the only
error it ever throws is that message. -/
theorem callTool_invalid_response {J : Type}
    (parse : List Char → Except (List Char) J) (parseJson : Bool)
    (response : ToolResponse) :
    ((∃ e, callToolUnwrap parse parseJson response = .error e) ↔
      (response.content = none ∨ response.content = some [] ∨
        ∃ c cs, response.content = some (c :: cs) ∧ c.type ≠ "text".toList)) ∧
    (∀ c cs, response.content = some (c :: cs) → c.type = "text".toList →
      ∃ r, callToolUnwrap parse parseJson response = .ok r) ∧
    (∀ e, callToolUnwrap parse parseJson response = .error e →
      e = "Invalid response from tool".toList) := by
  refine ⟨⟨?_, ?_⟩, ?_, ?_⟩
  · rintro ⟨e, he⟩
    rcases hcont : response.content with _ | (_ | ⟨c, cs⟩)
    · exact Or.inl rfl
    · exact Or.inr (Or.inl rfl)
    · by_cases hc : c.type = "text".toList
      · exfalso
        simp only [callToolUnwrap, hcont, if_pos hc] at he
        cases parseJson with
        | false => simp at he
        | true => cases hp : parse c.text <;> simp [hp] at he
      · exact Or.inr (Or.inr ⟨c, cs, rfl, hc⟩)
  · rintro (h | h | ⟨c, cs, h, hc⟩)
    · exact ⟨"Invalid response from tool".toList, by simp [callToolUnwrap, h]⟩
    · exact ⟨"Invalid response from tool".toList, by simp [callToolUnwrap, h]⟩
    · refine ⟨"Invalid response from tool".toList, ?_⟩
      simp only [callToolUnwrap, h]
      rw [if_neg hc]
  · intro c cs hcont hc
    simp only [callToolUnwrap, hcont, if_pos hc]
    cases parseJson with
    | true =>
        cases hp : parse c.text with
        | ok v => exact ⟨.parsed v, by simp [hp]⟩
        | error e' => exact ⟨.rawText c.text, by simp [hp]⟩
    | false => exact ⟨.plain c.text, by simp⟩
  · intro e he
    rcases hcont : response.content with _ | (_ | ⟨c, cs⟩)
    · simp only [callToolUnwrap, hcont] at he
      injection he with he
      exact he.symm
    · simp only [callToolUnwrap, hcont] at he
      injection he with he
      exact he.symm
    · simp only [callToolUnwrap, hcont] at he
      by_cases hc : c.type = "text".toList
      · rw [if_pos hc] at he
        cases parseJson with
        | true => cases hp : parse c.text <;> simp [hp] at he
        | false => simp at he
      · rw [if_neg hc] at he
        injection he with he
        exact he.symm

/-- Witness for C10: a malformed response throws the exact message, a text
response returns a value. -/
theorem callTool_invalid_response_witness :
    (∃ e, callToolUnwrap (fun (_ : List Char) => Except.ok 0) true
      { content := some [{ type := "image".toList, text := [] }] } = .error e) ∧
    (∃ r, callToolUnwrap (fun (_ : List Char) => Except.ok 0) true
      { content := some [{ type := "text".toList, text := "7".toList }] } = .ok r) :=
  ⟨(callTool_invalid_response _ true _).1.mpr
      (Or.inr (Or.inr ⟨_, [], rfl, by decide⟩)),
   (callTool_invalid_response _ true _).2.1 _ [] rfl rfl⟩

/-- C2: during a correlated call the installed wrapper fires the local
callback exactly on notifications whose `progressToken` matches the call's
token, always re-invokes the previously installed handler, and — whether the
call resolves or throws — the process-wide handler slot afterwards holds
exactly the handler reference that was installed before the call. -/
theorem callToolWithNotifications_router (s : MCPClientState)
    (progressToken : List Char) (c : Nat) (events : List ProgressNotification)
    (outcome : Except (List Char) (List Char)) :
    ((callToolWithNotifications s progressToken (some c) events outcome).2.1.onProgress
      = s.onProgress) ∧
    ((callToolWithNotifications s progressToken (some c) events outcome).1 =
      events.map (fun p =>
        (if p.progressToken = progressToken then [Invocation.cb c] else [])
          ++ fire s.onProgress p)) ∧
    (∀ p, Invocation.cb c ∉ fire s.onProgress p →
      (Invocation.cb c ∈
          fire (Handler.wrapper progressToken (some c) s.onProgress) p ↔
        p.progressToken = progressToken)) := by
  refine ⟨rfl, ?_, ?_⟩
  · refine congrArg (fun f => events.map f) ?_
    funext p
    simp [callToolWithNotifications, fire]
  intro p hp
  constructor
  · intro hmem
    simp only [fire, List.mem_append] at hmem
    rcases hmem with hmem | hmem
    · by_cases ht : p.progressToken = progressToken
      · exact ht
      · simp [ht] at hmem
    · exact absurd hmem hp
  · intro ht
    simp [fire, ht]

/-- Witness for C2: a prior external handler, one matching and one
non-matching notification, and a throwing call. -/
theorem callToolWithNotifications_router_witness :
    ((callToolWithNotifications ⟨.external 7⟩ ("tok".toList) (some 1)
        [⟨"tok".toList, none⟩, ⟨"zzz".toList, none⟩]
        (.error ("timeout".toList))).2.1.onProgress = .external 7) ∧
    ((callToolWithNotifications ⟨.external 7⟩ ("tok".toList) (some 1)
        [⟨"tok".toList, none⟩, ⟨"zzz".toList, none⟩]
        (.error ("timeout".toList))).1 =
      [[Invocation.cb 1, Invocation.ext 7], [Invocation.ext 7]]) ∧
    (Invocation.cb 1 ∈
      fire (Handler.wrapper ("tok".toList) (some 1) (.external 7))
        ⟨"tok".toList, none⟩) := by
  have h := callToolWithNotifications_router ⟨.external 7⟩ ("tok".toList) 1
    [⟨"tok".toList, none⟩, ⟨"zzz".toList, none⟩] (.error ("timeout".toList))
  refine ⟨h.1, ?_, ?_⟩
  · rw [h.2.1]
    decide
  · exact (h.2.2 ⟨"tok".toList, none⟩ (by decide)).mpr rfl

/-- C4: on any streaming-log failure — an `error` SSE frame or a transport
error — the client unconditionally schedules a retry of the same app/filter
session after a fixed 2000 ms delay, with no condition on the current state
(hence no retry limit), and the retry start clears the accumulated log
entries and progress messages. -/
theorem fetchLogs_retry (env : ClientEnv) (app : List Char)
    (filters : List (List Char × List Char)) (st : ClientLogState) :
    (∀ err det, (clientStep env app filters st (.error err det)).2 =
      some { delayMs := 2000, app := app, filters := filters, isRetry := true }) ∧
    ((clientTransportFailure app filters st).2 =
      some { delayMs := 2000, app := app, filters := filters, isRetry := true }) ∧
    (∀ isRetry, (fetchLogsStart st isRetry).logs = [] ∧
      (fetchLogsStart st isRetry).logProgress = []) := by
  refine ⟨fun _ _ => rfl, rfl, fun isRetry => ?_⟩
  cases isRetry <;> exact ⟨rfl, rfl⟩

/-- `List.splitOn` never returns the empty list of parts. -/
theorem splitOn_ne_empty (x : α) [BEq α] (l : List α) : l.splitOn x ≠ [] :=
  List.splitOnP_ne_nil _ l

/-- Concatenating `part ++ [x]` over a nonempty list of parts appends one
trailing `x` to the `x`-intercalation of the parts. -/
theorem flatten_map_append_singleton (x : α) :
    ∀ (l : List (List α)), l ≠ [] →
      (l.map (fun part => part ++ [x])).flatten = [x].intercalate l ++ [x] := by
  intro l
  induction l with
  | nil => intro h; exact absurd rfl h
  | cons a t ih =>
      intro _
      cases t with
      | nil => simp [List.intercalate]
      | cons b t' =>
          have hne : b :: t' ≠ [] := by simp
          have hih := ih hne
          show (a ++ [x]) ++ (List.map (fun part => part ++ [x]) (b :: t')).flatten
              = [x].intercalate (a :: b :: t') ++ [x]
          rw [hih]
          have hint : [x].intercalate (a :: b :: t')
              = (a ++ [x]) ++ [x].intercalate (b :: t') := by
            simp [List.intercalate, List.intersperse_cons_cons]
          rw [hint]
          simp [List.append_assoc]

/-- C6 fails as stated: for the two-word content `hi there` the emitted
frames concatenate to `hi there ` — the original text plus a trailing space,
not the original text. -/
theorem openai_word_chunks_counterexample :
    framesText (openaiNoToolFrames (some ("hi there".toList))) = "hi there ".toList ∧
    "hi there ".toList ≠ "hi there".toList := by
  constructor
  · decide
  · decide

/-- C6 (amended): for a nonempty no-tool-call content the emitted `content`
frames concatenate, in order, to the original message text followed by one
trailing space; an empty or absent content emits nothing. -/
theorem openai_word_chunks_concat (content : List Char) (h : content ≠ []) :
    framesText (openaiNoToolFrames (some content)) = content ++ [' '] := by
  have hframes : openaiNoToolFrames (some content)
      = (emitWordChunks content).map .content := by
    simp [openaiNoToolFrames, h]
  have htext : framesText ((emitWordChunks content).map .content)
      = (emitWordChunks content).flatten := by
    unfold framesText
    rw [List.filterMap_map]
    have hcomp : ((fun f => match f with
        | ChatFrame.content t => some t
        | _ => none) ∘ ChatFrame.content) = (some : List Char → Option (List Char)) := rfl
    rw [hcomp, List.filterMap_some]
  rw [hframes, htext]
  unfold emitWordChunks
  rw [flatten_map_append_singleton ' ' _ (splitOn_ne_empty ' ' content)]
  rw [List.intercalate_splitOn]

/-- Witness for the amended C6 at a concrete content. -/
theorem openai_word_chunks_concat_witness :
    "hi".toList ≠ [] ∧
    framesText (openaiNoToolFrames (some ("hi".toList))) = "hi".toList ++ [' '] :=
  ⟨by decide, openai_word_chunks_concat ("hi".toList) (by decide)⟩

/-- C9 fails as stated: with no API key configured the endpoint replies with
an HTTP 400 JSON error before any SSE setup — not with an SSE `error`
frame. -/
theorem chat_no_key_counterexample :
    (chatEndpoint false ([], none)).isSse = false ∧
    chatEndpoint false ([], none)
      = .jsonError 400 ("No API key configured".toList) := by
  constructor
  · decide
  · decide

/-- C9 (amended): with credentials configured, after all content frames the
endpoint writes the `[DONE]` sentinel and ends the stream; a provider failure
ends the stream with an SSE `error` frame instead (a single frame when the
provider rejected the request before any content); without credentials the
endpoint short-circuits to an HTTP 400 JSON error, not an SSE frame. -/
theorem chat_termination (frames : List ChatFrame) (e : List Char) :
    (chatEndpoint true (frames, none) = .sse (frames ++ [.done])) ∧
    (chatEndpoint true (frames, some e) = .sse (frames ++ [.errorFrame e])) ∧
    (chatEndpoint true ([], some e) = .sse [.errorFrame e]) ∧
    (∀ run, chatEndpoint false run = .jsonError 400 ("No API key configured".toList)) := by
  refine ⟨rfl, rfl, rfl, ?_⟩
  intro run
  obtain ⟨fs, err⟩ := run
  cases err <;> rfl

/-- The active-declaration set reached from an empty set by a sequence of
escape codes, as `ansiToHtml`'s `currentStyles` evolves within one pass. -/
def runCodes (codes : List (List Char)) : List (List Char) :=
  codes.foldl applyCode []

/-- The `currentStyles` invariant: every active declaration is a value of the
code map, and no two active declarations share a CSS property key. -/
def stylesInv (styles : List (List Char)) : Prop :=
  (∀ s ∈ styles, ∃ code, ansiColorMap code = some s) ∧
  styles.Pairwise (fun s t => styleProp s ≠ styleProp t)

/-- A successful association-list lookup returns a stored pair. -/
theorem lookup_mem [BEq α] (k : α) (v : β) :
    ∀ (l : List (α × β)), l.lookup k = some v → ∃ k', (k', v) ∈ l := by
  intro l
  induction l with
  | nil => intro h; cases h
  | cons p t ih =>
      intro h
      rw [List.lookup] at h
      by_cases hk : (k == p.1) = true
      · rw [hk] at h
        injection h with h
        exact ⟨p.1, by rw [← h]; simp⟩
      · rw [Bool.not_eq_true] at hk
        rw [hk] at h
        obtain ⟨k', hk'⟩ := ih h
        exact ⟨k', List.mem_cons_of_mem _ hk'⟩

/-- Every value of the code map starts with its own property key. -/
theorem styleProp_prefix (code style : List Char)
    (h : ansiColorMap code = some style) :
    (styleProp style).isPrefixOf style = true := by
  obtain ⟨k', hmem⟩ := lookup_mem code style ansiColorMapList h
  have hall : ∀ p ∈ ansiColorMapList, (styleProp p.2).isPrefixOf p.2 = true := by
    decide
  exact hall _ hmem

/-- `applyCode` preserves the `currentStyles` invariant. -/
theorem stylesInv_applyCode (styles : List (List Char)) (code : List Char)
    (h : stylesInv styles) : stylesInv (applyCode styles code) := by
  by_cases h0 : code = ['0'] ∨ code = []
  · have hres : applyCode styles code = [] := by
      unfold applyCode
      rcases h0 with h0 | h0 <;> simp [h0]
    rw [hres]
    exact ⟨by simp, List.Pairwise.nil⟩
  · push_neg at h0
    cases hmap : ansiColorMap code with
    | none =>
        have hres : applyCode styles code = styles := by
          unfold applyCode
          simp [h0.1, h0.2, hmap]
        rw [hres]
        exact h
    | some style =>
        have hres : applyCode styles code =
            (styles.filter (fun s => !((styleProp style).isPrefixOf s))) ++ [style] := by
          unfold applyCode
          simp [h0.1, h0.2, hmap, styleProp]
        rw [hres]
        obtain ⟨hmem, hpw⟩ := h
        constructor
        · intro s hs
          rcases List.mem_append.mp hs with hs | hs
          · exact hmem s (List.mem_of_mem_filter hs)
          · rw [List.mem_singleton.mp hs]
            exact ⟨code, hmap⟩
        · apply List.pairwise_append.mpr
          refine ⟨hpw.filter _, List.pairwise_singleton _ _, ?_⟩
          intro s hs t ht
          rw [List.mem_singleton.mp ht]
          intro heq
          have hsf := List.of_mem_filter hs
          obtain ⟨cs, hcs⟩ := hmem s (List.mem_of_mem_filter hs)
          have hpre := styleProp_prefix cs s hcs
          rw [heq] at hpre
          rw [hpre] at hsf
          simp at hsf

/-- The invariant holds along any fold of `applyCode`. -/
theorem stylesInv_foldl (codes : List (List Char)) :
    ∀ styles, stylesInv styles → stylesInv (codes.foldl applyCode styles) := by
  induction codes with
  | nil => intro styles h; exact h
  | cons c t ih =>
      intro styles h
      exact ih _ (stylesInv_applyCode styles c h)

/-- C5: throughout one `ansiToHtml` pass the active-declaration set holds at
most one declaration per CSS property; a recognized code evicts the prior
declaration of its property and appends its own (latest wins, other
properties kept), an unrecognized code is a no-op, code `0` or an empty code
clears the whole set, and hence any code sequence ending in a reset leaves
the set empty. -/
theorem ansi_style_state (codes : List (List Char)) (code : List Char) :
    stylesInv (runCodes codes) ∧
    (∀ styles, code ≠ ['0'] → code ≠ [] → ansiColorMap code = none →
      applyCode styles code = styles) ∧
    (∀ styles, applyCode styles ['0'] = [] ∧ applyCode styles [] = []) ∧
    (∀ style, ansiColorMap code = some style →
      style ∈ runCodes (codes ++ [code]) ∧
      ∀ s ∈ runCodes (codes ++ [code]), styleProp s = styleProp style → s = style) ∧
    (code = ['0'] ∨ code = [] → runCodes (codes ++ [code]) = []) := by
  have hfold : runCodes (codes ++ [code]) = applyCode (runCodes codes) code := by
    unfold runCodes
    rw [List.foldl_append]
    rfl
  have hinv : stylesInv (runCodes codes) :=
    stylesInv_foldl codes [] ⟨by simp, List.Pairwise.nil⟩
  refine ⟨hinv, ?_, ?_, ?_, ?_⟩
  · intro styles h1 h2 hmap
    unfold applyCode
    simp [h1, h2, hmap]
  · intro styles
    constructor
    · unfold applyCode; simp
    · unfold applyCode; simp
  · intro style hmap
    have h0 : ¬(code = ['0'] ∨ code = []) := by
      rintro (rfl | rfl)
      · rw [show ansiColorMap ['0'] = none from rfl] at hmap
        cases hmap
      · rw [show ansiColorMap [] = none from rfl] at hmap
        cases hmap
    push_neg at h0
    have hres : applyCode (runCodes codes) code =
        ((runCodes codes).filter (fun s => !((styleProp style).isPrefixOf s))) ++ [style] := by
      unfold applyCode
      simp [h0.1, h0.2, hmap, styleProp]
    rw [hfold, hres]
    constructor
    · exact List.mem_append_right _ (List.mem_singleton_self _)
    · intro s hs heq
      rcases List.mem_append.mp hs with hs | hs
      · exfalso
        have hsf := List.of_mem_filter hs
        obtain ⟨cs, hcs⟩ := hinv.1 s (List.mem_of_mem_filter hs)
        have hpre := styleProp_prefix cs s hcs
        rw [heq] at hpre
        rw [hpre] at hsf
        simp at hsf
      · exact List.mem_singleton.mp hs
  · intro h0
    rw [hfold]
    unfold applyCode
    rcases h0 with h0 | h0 <;> simp [h0]

/-- Witness for C5: bold then red then blue keeps bold and only blue;
an unrecognized code is a no-op; a trailing reset empties the set. -/
theorem ansi_style_state_witness :
    runCodes ["1".toList, "31".toList, "34".toList] =
      ["font-weight: bold".toList, "color: #3498db".toList] ∧
    applyCode ["font-weight: bold".toList] ("99".toList) = ["font-weight: bold".toList] ∧
    ("color: #3498db".toList) ∈ runCodes (["1".toList, "31".toList] ++ ["34".toList]) ∧
    runCodes (["31".toList, "1".toList] ++ ["0".toList]) = [] := by
  refine ⟨by decide, ?_, ?_, ?_⟩
  · exact (ansi_style_state [] ("99".toList)).2.1 _ (by decide) (by decide) (by decide)
  · exact ((ansi_style_state ["1".toList, "31".toList] ("34".toList)).2.2.2.1 _ rfl).1
  · exact (ansi_style_state ["31".toList, "1".toList] ("0".toList)).2.2.2.2 (Or.inl rfl)

/-- Decidable check that the escape-sequence regex matches at no position of
the input: the input contains no ANSI escape sequence. -/
def noEscB (l : List Char) : Bool :=
  (List.range (l.length + 1)).all (fun i => (matchEsc (l.drop i)).isNone)

theorem noEscB_spec (l : List Char) (h : noEscB l = true) :
    ∀ i, matchEsc (l.drop i) = none := by
  intro i
  by_cases hi : i ≤ l.length
  · have hmem : i ∈ List.range (l.length + 1) := List.mem_range.mpr (by omega)
    have := List.all_eq_true.mp h i hmem
    exact Option.isNone_iff_eq_none.mp this
  · have hdrop : l.drop i = [] := List.drop_eq_nil_of_le (by omega)
    rw [hdrop]
    rfl

theorem replaceAllChar_append (a b : List Char) (c : Char) (r : List Char) :
    replaceAllChar (a ++ b) c r = replaceAllChar a c r ++ replaceAllChar b c r := by
  unfold replaceAllChar
  rw [List.flatMap_append]

theorem escapeHtml_append (a b : List Char) :
    escapeHtml (a ++ b) = escapeHtml a ++ escapeHtml b := by
  unfold escapeHtml
  simp only [replaceAllChar_append]

theorem escapeHtml_nil : escapeHtml [] = [] := rfl

theorem flushText_nil_styles (buf : List Char) :
    flushText [] buf = escapeHtml buf := by
  unfold flushText
  by_cases hb : buf = []
  · rw [if_pos hb, hb, escapeHtml_nil]
  · rw [if_neg hb]
    simp

/-- When the escape regex matches nowhere, the scan emits the escaped input
after the escaped buffer, with no span. -/
theorem ansiScan_no_esc : ∀ (l : List Char) (fuel : Nat) (buf : List Char),
    l.length ≤ fuel → (∀ i, matchEsc (l.drop i) = none) →
    ansiScan fuel [] buf l = escapeHtml (buf ++ l) := by
  intro l
  induction l with
  | nil =>
      intro fuel buf hf hm
      cases fuel with
      | zero => simpa using flushText_nil_styles buf
      | succ f => simpa using flushText_nil_styles buf
  | cons c cs ih =>
      intro fuel buf hf hm
      cases fuel with
      | zero => simp at hf
      | succ f =>
          have h0 : matchEsc (c :: cs) = none := by simpa using hm 0
          have hstep : ansiScan (f + 1) [] buf (c :: cs)
              = ansiScan f [] (buf ++ [c]) cs := by
            simp only [ansiScan, h0]
          rw [hstep]
          have hrec := ih f (buf ++ [c])
            (by simp only [List.length_cons] at hf; omega)
            (fun i => by simpa using hm (i + 1))
          rw [hrec, List.append_assoc]
          rfl

/-- C7: on an input the escape-sequence regex never matches, `ansiToHtml`
returns exactly the HTML-escaped input — content unchanged apart from
escaping, and no span wrapper added. -/
theorem ansiToHtml_plain (l : List Char) (h : noEscB l = true) :
    ansiToHtml l = escapeHtml l := by
  have hmain := ansiScan_no_esc l l.length [] le_rfl (noEscB_spec l h)
  simpa [ansiToHtml] using hmain

/-- Witness for C7 at a concrete escape-free input with special characters. -/
theorem ansiToHtml_plain_witness :
    noEscB ("hello <w> & Bob's \"q\"".toList) = true ∧
    ansiToHtml ("hello <w> & Bob's \"q\"".toList)
      = escapeHtml ("hello <w> & Bob's \"q\"".toList) :=
  ⟨by decide, ansiToHtml_plain _ (by decide)⟩

/-- C8: when the first pass requests a tool call whose execution throws, the
error is captured for that call as an error-flagged `tool_result` included in
the second-pass request, and the flow still completes by streaming the
second-pass response — it does not abort the exchange. -/
theorem anthropic_tool_error_recovery {J : Type}
    (exec : List Char → J → Except (List Char) J) (stringify : J → List Char)
    (chatMessages : List (AMessage J)) (responseContent : List (AContentBlock J))
    (stream : List (AMessage J) → List AChunk) (b : AContentBlock J) (e : List Char)
    (hb : b ∈ responseContent) (htype : b.type = "tool_use".toList)
    (herr : exec b.name b.input = .error e) :
    ({ tool_use_id := b.id, content := "Error: ".toList ++ e, is_error := true } ∈
      anthropicToolResults exec stringify responseContent) ∧
    (anthropicChat exec stringify chatMessages responseContent stream =
      (anthropicStreamFrames (stream (anthropicSecondPassMessages chatMessages
          responseContent (anthropicToolResults exec stringify responseContent))),
        some (anthropicSecondPassMessages chatMessages responseContent
          (anthropicToolResults exec stringify responseContent)))) ∧
    (AMessage.userToolResults (anthropicToolResults exec stringify responseContent) ∈
      anthropicSecondPassMessages chatMessages responseContent
        (anthropicToolResults exec stringify responseContent)) := by
  have hfil : b ∈ responseContent.filter (fun bl => bl.type = "tool_use".toList) :=
    List.mem_filter.mpr ⟨hb, by simp [htype]⟩
  refine ⟨?_, ?_, ?_⟩
  · unfold anthropicToolResults
    refine List.mem_map.mpr ⟨b, hfil, ?_⟩
    rw [herr]
  · have hne : (responseContent.filter (fun bl => bl.type = "tool_use".toList)).isEmpty
        = false := by
      cases hl : responseContent.filter (fun bl => bl.type = "tool_use".toList) with
      | nil => rw [hl] at hfil; cases hfil
      | cons x xs => rfl
    unfold anthropicChat
    simp only [hne, Bool.not_false, if_true]
  · unfold anthropicSecondPassMessages
    exact List.mem_append_right _ (by simp)

/-- Witness for C8: one `tool_use` block whose execution throws `boom`; the
second pass still streams one content chunk. -/
theorem anthropic_tool_error_recovery_witness :
    ({ tool_use_id := "id1".toList, content := "Error: ".toList ++ "boom".toList,
        is_error := true } ∈
      anthropicToolResults (fun _ _ => Except.error ("boom".toList))
        (fun (_ : Nat) => [])
        [{ type := "tool_use".toList, id := "id1".toList, name := "fly-logs".toList,
           input := 0, text := [] }]) ∧
    ((anthropicChat (fun _ _ => Except.error ("boom".toList)) (fun (_ : Nat) => []) []
        [{ type := "tool_use".toList, id := "id1".toList, name := "fly-logs".toList,
           input := 0, text := [] }]
        (fun _ => [AChunk.textDelta ("done ".toList)])).1
      = [ChatFrame.content ("done ".toList)]) := by
  have h := anthropic_tool_error_recovery (fun _ _ => Except.error ("boom".toList))
    (fun (_ : Nat) => []) []
    [{ type := "tool_use".toList, id := "id1".toList, name := "fly-logs".toList,
       input := 0, text := [] }]
    (fun _ => [AChunk.textDelta ("done ".toList)])
    { type := "tool_use".toList, id := "id1".toList, name := "fly-logs".toList,
      input := 0, text := [] }
    ("boom".toList) (by simp) rfl rfl
  refine ⟨h.1, ?_⟩
  rw [h.2.1]
  rfl

/-- The progress entries the client window accumulates for a list of
effective progress messages, starting at oracle draw counter `t`. -/
def expectedProgressEntries (env : ClientEnv) : Nat → List (List Char) → List LogEntry
  | _, [] => []
  | t, m :: ms => progressEntry env t m :: expectedProgressEntries env (t + 1) ms

theorem expectedProgressEntries_length (env : ClientEnv) :
    ∀ (t : Nat) (ms : List (List Char)),
      (expectedProgressEntries env t ms).length = ms.length := by
  intro t ms
  induction ms generalizing t with
  | nil => rfl
  | cons m rest ih => simp [expectedProgressEntries, ih]

theorem effMessage_some (n : ProgressNotification) (m : List Char)
    (h : effMessage n = some m) : m ≠ [] ∧ rawMessageOf m n = m := by
  have hm : m ≠ [] := by
    unfold effMessage at h
    cases hmsg : n.message with
    | none =>
        rw [hmsg] at h
        dsimp only at h
        cases h
    | some m0 =>
        rw [hmsg] at h
        dsimp only at h
        by_cases h0 : m0 = []
        · rw [if_pos h0] at h; cases h
        · rw [if_neg h0] at h
          injection h with h
          rw [← h]; exact h0
  refine ⟨hm, ?_⟩
  unfold rawMessageOf
  rw [if_pos hm]

theorem clientStep_complete (env : ClientEnv) (app : List Char)
    (filters : List (List Char × List Char)) (s : ClientLogState)
    (fl : List LogEntry) (pm : List (List Char)) :
    (clientStep env app filters s (.complete fl pm)).1
      = { s with logs := s.logs ++ fl, logsLoading := false } := by
  unfold clientStep
  by_cases hfl : fl = []
  · subst hfl
    simp
  · simp [hfl]

/-- Folding the progress frames of a session appends one progress entry per
effective message, in arrival order. -/
theorem clientFold_progress (env : ClientEnv) (app : List Char)
    (filters : List (List Char × List Char)) :
    ∀ (notifs : List ProgressNotification) (s : ClientLogState),
      (progressFrames notifs).foldl
          (fun st f => (clientStep env app filters st f).1) s
        = { s with
            logs := s.logs ++ expectedProgressEntries env s.ticks (progressMessages notifs),
            ticks := s.ticks + (progressMessages notifs).length } := by
  intro notifs
  induction notifs with
  | nil =>
      intro s
      simp [progressFrames, progressMessages, expectedProgressEntries]
  | cons n rest ih =>
      intro s
      cases hm : effMessage n with
      | none =>
          have h1 : progressFrames (n :: rest) = progressFrames rest := by
            unfold progressFrames
            rw [List.filterMap_cons]
            simp [hm]
          have h2 : progressMessages (n :: rest) = progressMessages rest := by
            unfold progressMessages
            rw [List.filterMap_cons]
            simp [hm]
          rw [h1, h2, ih]
      | some m =>
          obtain ⟨hmne, hraw⟩ := effMessage_some n m hm
          have h1 : progressFrames (n :: rest)
              = .progress m n :: progressFrames rest := by
            unfold progressFrames
            rw [List.filterMap_cons, hm]
            rfl
          have h2 : progressMessages (n :: rest) = m :: progressMessages rest := by
            unfold progressMessages
            rw [List.filterMap_cons, hm]
          have hstep : (clientStep env app filters s (.progress m n)).1
              = { s with logs := s.logs ++ [progressEntry env s.ticks m],
                         ticks := s.ticks + 1 } := by
            unfold clientStep
            dsimp only
            rw [hraw]
          rw [h1, List.foldl_cons, hstep, ih]
          dsimp only
          rw [h2]
          congr 1
          · rw [List.append_assoc]
            rfl
          · simp [expectedProgressEntries]
            omega

/-- C1 fails as stated: for 3 progress notifications followed by a completion
with 2 final lines, the emitted `complete` frame's log list has length 2 (the
final-line entries only), not 5 — the progress-derived entries travel in
`progressMessages`, and the K+M merge happens in the client window. -/
theorem log_session_counterexample :
    ((completeLogsOf (serverLogSession (fun _ => [])
        [⟨"t".toList, some ("a".toList)⟩, ⟨"t".toList, some ("b".toList)⟩,
         ⟨"t".toList, some ("c".toList)⟩]
        (.ok ("l1\nl2".toList)) none)).map List.length = some 2) ∧
    ¬ ((completeLogsOf (serverLogSession (fun _ => [])
        [⟨"t".toList, some ("a".toList)⟩, ⟨"t".toList, some ("b".toList)⟩,
         ⟨"t".toList, some ("c".toList)⟩]
        (.ok ("l1\nl2".toList)) none)).map List.length = some 5) := by
  constructor
  · decide
  · decide

/-- C1 (amended): the `complete` frame carries exactly the M rendered
final-line entries (M at most the caller-specified limit, default 100) plus
the progress-message list; the client window, after processing the whole
session, holds the K progress-derived entries first (arrival order) followed
by the M final-line entries — length K+M. -/
theorem log_session_merge (ts : List Char → List Char) (env : ClientEnv)
    (app : List Char) (filters : List (List Char × List Char))
    (st : ClientLogState) (isRetry : Bool)
    (notifs : List ProgressNotification) (finalText : List Char)
    (lines : Option Nat) :
    (completeLogsOf (serverLogSession ts notifs (.ok finalText) lines)
      = some (processFinalLogs ts finalText lines)) ∧
    ((processFinalLogs ts finalText lines).length ≤ effLimit lines) ∧
    ((clientRun env app filters st isRetry
        (serverLogSession ts notifs (.ok finalText) lines)).logs
      = expectedProgressEntries env st.ticks (progressMessages notifs)
        ++ processFinalLogs ts finalText lines) ∧
    ((clientRun env app filters st isRetry
        (serverLogSession ts notifs (.ok finalText) lines)).logs.length
      = (progressMessages notifs).length
        + (processFinalLogs ts finalText lines).length) := by
  have hframes : serverLogSession ts notifs (.ok finalText) lines
      = .connected :: (progressFrames notifs
          ++ [.complete (processFinalLogs ts finalText lines)
                (progressMessages notifs)]) := by
    unfold serverLogSession
    rfl
  have hstart_logs : (fetchLogsStart st isRetry).logs = [] := by
    cases isRetry <;> rfl
  have hstart_ticks : (fetchLogsStart st isRetry).ticks = st.ticks := by
    cases isRetry <;> rfl
  have hclient : (clientRun env app filters st isRetry
      (serverLogSession ts notifs (.ok finalText) lines)).logs
      = expectedProgressEntries env st.ticks (progressMessages notifs)
        ++ processFinalLogs ts finalText lines := by
    unfold clientRun
    rw [hframes, List.foldl_cons]
    have hcon : (clientStep env app filters (fetchLogsStart st isRetry)
        SSEFrame.connected).1 = fetchLogsStart st isRetry := rfl
    rw [hcon, List.foldl_append,
      clientFold_progress env app filters notifs (fetchLogsStart st isRetry),
      List.foldl_cons, List.foldl_nil, clientStep_complete]
    dsimp only
    rw [hstart_logs, hstart_ticks]
    simp
  refine ⟨?_, ?_, hclient, ?_⟩
  · unfold completeLogsOf
    rw [hframes]
    simp [List.reverse_append]
  · unfold processFinalLogs jsSliceNeg
    rw [List.length_mapIdx, List.length_drop]
    omega
  · rw [hclient, List.length_append, expectedProgressEntries_length]
